import Mathlib

/-!
Shallow embedding of the calculator's state-management core
(`app/calculation.py`, `app/history.py`, `app/calculator_memento.py`,
`app/operations.py`, `app/input_validators.py`, `app/calculator.py`).

Numbers are modelled by `ℚ` (the exact idealisation of the Python floats;
NaN and float overflow have no counterpart here and are noted where they
matter).  Timestamps (`datetime.now()`) are modelled as an abstract tick
passed in by the caller.  Python lists are Lean lists; Python stacks
(`append` / `pop` at the right end) are modelled with the head of a Lean
list as the top of the stack.  Raised exceptions are modelled with
`Except` / `Option` error components, and a Python method that mutates
`self` becomes a function returning the new state together with the
error component (the returned state is the pre-call state exactly when
the Python method raises before mutating).
-/

/-- A `Calculation` record (`app/calculation.py`): operation name, the two
operands, the result, and the creation timestamp (modelled as a tick). -/
structure Calculation where
  operation : String
  operand1 : ℚ
  operand2 : ℚ
  result : ℚ
  timestamp : ℕ
deriving DecidableEq, Repr

/-- Python's slice `l[-k:]` for `k ≥ 0`: the last `k` elements, except that
`l[-0:]` is the whole list (`-0 == 0` in Python, so the slice starts at 0). -/
def pySliceLast (k : ℕ) (l : List α) : List α :=
  if k = 0 then l else l.drop (l.length - k)

/-- The trimming step shared by `add_calculation`, `set_history` and
`load_from_csv` (`app/history.py`): `if len(h) > max_size: h = h[-max_size:]`. -/
def trimHistory (maxSize : ℕ) (l : List α) : List α :=
  if maxSize < l.length then pySliceLast maxSize l else l

/-- `CalculationHistory.add_calculation` (`app/history.py`, lines 23-34):
append, then trim to the most recent `max_size` entries. -/
def add_calculation (maxSize : ℕ) (h : List Calculation) (c : Calculation) :
    List Calculation :=
  trimHistory maxSize (h ++ [c])

/-- `CalculationHistory.set_history` (`app/history.py`, lines 74-85):
replace the contents with a copy of the given list, then trim. -/
def set_history (maxSize : ℕ) (newHistory : List Calculation) : List Calculation :=
  trimHistory maxSize newHistory

deriving instance DecidableEq for Except

/-- The input to `load_from_csv` as seen through pandas: the file is either
missing (`os.path.exists` is false), completely empty (pandas raises
`EmptyDataError`), or a list of data rows each of which either parses into a
`Calculation` via `Calculation.from_dict` or raises with a message
(non-numeric operand, bad timestamp, ...).  A header-only file is `rows []`. -/
inductive CsvFile where
  | missing
  | empty
  | rows (rs : List (Except String Calculation))
deriving DecidableEq, Repr

/-- The row loop of `load_from_csv` (`app/history.py`, lines 139-141): rows
are converted and appended one at a time; the first malformed row aborts the
loop, leaving the prefix of already-appended calculations behind.  Returns
that prefix together with the error of the offending row, if any. -/
def parse_rows : List (Except String Calculation) → List Calculation × Option String
  | [] => ([], none)
  | Except.ok c :: rest =>
      let (p, e) := parse_rows rest
      (c :: p, e)
  | Except.error e :: _ => ([], some e)

/-- `CalculationHistory.load_from_csv` (`app/history.py`, lines 119-151),
acting on the current contents `h`.  A missing file raises before any
mutation (the `HistoryError` is re-wrapped by the generic handler); an empty
file is caught by the `EmptyDataError` handler after `clear()`; otherwise the
history is cleared, rows are appended until one fails, and only a fully
successful load is trimmed to `max_size`. -/
def load_from_csv (maxSize : ℕ) (h : List Calculation) (f : CsvFile) :
    List Calculation × Option String :=
  match f with
  | CsvFile.missing =>
      (h, some "Failed to load history from CSV: History file not found")
  | CsvFile.empty => ([], none)
  | CsvFile.rows rs =>
      match parse_rows rs with
      | (p, some e) => (p, some ("Failed to load history from CSV: " ++ e))
      | (p, none) => (trimHistory maxSize p, none)

/-- Python's float modulo `a % b` (sign follows the divisor):
`a - b * floor(a / b)`. -/
def pymod (a b : ℚ) : ℚ := a - b * ⌊a / b⌋

/-- Python's float floor division `a // b`: `floor(a / b)` as a float. -/
def pyFloorDiv (a b : ℚ) : ℚ := (⌊a / b⌋ : ℚ)

/-- `OperationFactory.create_operation` followed by `Operation.execute`
(`app/operations.py`), over the exact rational model.  The two branches whose
Python results are in general irrational (`power` with a non-integer
exponent, and `root`) fall outside the rational carrier: `power` is modelled
for integer exponents (`0 ** negative` raises in Python and is an error
here), and `root` is modelled separately over `ℝ` by `root_execute` below.
The engine theorems are parametric in this function, so no claim depends on
those two branches. -/
def executeOperation (name : String) (a b : ℚ) : Except String ℚ :=
  if name = "add" then Except.ok (a + b)
  else if name = "subtract" then Except.ok (a - b)
  else if name = "multiply" then Except.ok (a * b)
  else if name = "divide" then
    if b = 0 then Except.error "Division by zero is not allowed"
    else Except.ok (a / b)
  else if name = "power" then
    if b.den = 1 then
      if a = 0 ∧ b.num < 0 then Except.error "zero cannot be raised to a negative power"
      else Except.ok (a ^ b.num)
    else Except.error "non-integer exponent outside the rational model"
  else if name = "root" then Except.error "irrational result outside the rational model"
  else if name = "modulus" then
    if b = 0 then Except.error "Modulus by zero is not allowed"
    else Except.ok (pymod a b)
  else if name = "int_divide" then
    if b = 0 then Except.error "Division by zero is not allowed"
    else Except.ok (pyFloorDiv a b)
  else if name = "percent" then
    if b = 0 then Except.error "Cannot calculate percentage with zero denominator"
    else Except.ok (a / b * 100)
  else if name = "abs_diff" then Except.ok |a - b|
  else Except.error ("Unknown operation: " ++ name)

/-- `RootOperation.execute` (`app/operations.py`, lines 99-132), with the
float arithmetic idealised over `ℝ` (so `a ** (1 / b)` is the real power
and float overflow does not occur): degree zero and even roots of negative
numbers are rejected, for negative `a` the sign is handled separately as
`-(abs(a) ** (1 / b))`, and in the remaining branch `0.0 ** (1 / b)` with
`b < 0` raises `ZeroDivisionError`, which the handler at lines 127-128
catches and re-raises as an `OperationError` ("Root operation failed:
..."). -/
noncomputable def root_execute (a b : ℚ) : Except String ℝ :=
  if b = 0 then Except.error "Root degree cannot be zero"
  else if a < 0 ∧ pymod b 2 = 0 then
    Except.error "Cannot calculate even root of negative number"
  else if a < 0 then Except.ok (-(((|a| : ℚ) : ℝ) ^ ((1 : ℝ) / (b : ℝ))))
  else if a = 0 ∧ b < 0 then
    Except.error "Root operation failed: 0.0 cannot be raised to a negative power"
  else Except.ok (((a : ℚ) : ℝ) ^ ((1 : ℝ) / (b : ℝ)))

/-- `InputValidator.validate_number` (`app/input_validators.py`, lines
10-38) on an already-numeric rational input: the float coercion always
succeeds, NaN does not exist in `ℚ`, and the magnitude bound is checked
when present. -/
def validate_number (num : ℚ) (maxValue : Option ℚ) : Except String ℚ :=
  match maxValue with
  | some m =>
      if |num| > m then Except.error "Number exceeds maximum allowed value"
      else Except.ok num
  | none => Except.ok num

/-- Python 3's `round(x, p)` for `p ≥ 0` in exact arithmetic: scale by
`10 ^ p`, round half to even, scale back. -/
def pyRound (x : ℚ) (p : ℕ) : ℚ :=
  let y := x * (10 ^ p : ℚ)
  let n := ⌊y⌋
  let r : ℤ :=
    if y - n > 1 / 2 then n + 1
    else if y - n < 1 / 2 then n
    else if Even n then n else n + 1
  (r : ℚ) / (10 ^ p : ℚ)

/-- The calculator-level exception taxonomy (`app/exceptions.py`) as far as
the engine raises it from `perform_calculation` / `undo` / `redo` /
`load_history`. -/
inductive CalcError where
  | validationError (msg : String)
  | operationError (msg : String)
  | historyError (msg : String)
deriving DecidableEq, Repr

/-- The visible state of one `Calculator` (`app/calculator.py`): the
`CalculationHistory` contents together with the `CalculatorCaretaker`'s two
memento stacks (`app/calculator_memento.py`).  A `CalculatorMemento` is a
copy of a history list, so a stack of mementos is a list of lists; the head
is the top of the stack. -/
structure CalcState where
  history : List Calculation
  undoStack : List (List Calculation)
  redoStack : List (List Calculation)
deriving DecidableEq, Repr

/-- `Calculator.__init__` (`app/calculator.py`, lines 83-118): empty history
and caretaker, then `save_state(CalculatorMemento(get_history()))` pushes an
initial empty snapshot (and clears the empty redo stack). -/
def initState : CalcState :=
  { history := [], undoStack := [[]], redoStack := [] }

/-- `CalculatorCaretaker.can_undo` (`app/calculator_memento.py`, lines
92-99): the undo stack is non-empty. -/
def can_undo (s : CalcState) : Bool := decide (0 < s.undoStack.length)

/-- `CalculatorCaretaker.can_redo` (`app/calculator_memento.py`, lines
101-108): the redo stack is non-empty. -/
def can_redo (s : CalcState) : Bool := decide (0 < s.redoStack.length)

/-- `Calculator.perform_calculation` (`app/calculator.py`, lines 139-178),
parametric in the operation semantics `exec` (the factory lookup plus
`execute`; instantiate with `executeOperation`).  The steps run in source
order: validate both operands, execute, round, build the `Calculation`
record (with the current tick as its timestamp), append to the history,
save a post-append memento (clearing the redo stack), notify observers.
An exception at validation or execution aborts before any mutation, so
those branches return the state unchanged and an empty notification list.
Returns (new state, calculations handed to `notify_observers`, result). -/
def perform_calculation (cfg : ℕ × ℕ × ℚ)
    (exec : String → ℚ → ℚ → Except String ℚ) (s : CalcState)
    (op : String) (a b : ℚ) (tick : ℕ) :
    CalcState × List Calculation × Except CalcError ℚ :=
  let (maxHistorySize, precision, maxInputValue) := cfg
  match validate_number a (some maxInputValue) with
  | Except.error e => (s, [], Except.error (CalcError.validationError e))
  | Except.ok a' =>
    match validate_number b (some maxInputValue) with
    | Except.error e => (s, [], Except.error (CalcError.validationError e))
    | Except.ok b' =>
      match exec op a' b' with
      | Except.error e => (s, [], Except.error (CalcError.operationError e))
      | Except.ok r0 =>
        let r := pyRound r0 precision
        let c : Calculation :=
          { operation := op, operand1 := a', operand2 := b', result := r,
            timestamp := tick }
        let h := add_calculation maxHistorySize s.history c
        ({ history := h, undoStack := h :: s.undoStack, redoStack := [] },
         [c], Except.ok r)

/-- `Calculator.undo` (`app/calculator.py`, lines 180-196) together with
`CalculatorCaretaker.undo` (`app/calculator_memento.py`, lines 49-71): a
guard on `can_undo` raises `HistoryError`; otherwise the top memento moves
to the redo stack and the history is replaced (via `set_history`, which
trims) by the new top, or by an empty snapshot if none remains.  The inner
`IndexError` branch is unreachable behind the guard but kept faithfully. -/
def calculator_undo (maxSize : ℕ) (s : CalcState) : CalcState × Option CalcError :=
  if can_undo s = false then (s, some (CalcError.historyError "Nothing to undo"))
  else
    match s.undoStack with
    | [] => (s, some (CalcError.historyError "Nothing to undo"))
    | top :: rest =>
        let prev := match rest with
          | [] => ([] : List Calculation)
          | p :: _ => p
        ({ history := set_history maxSize prev, undoStack := rest,
           redoStack := top :: s.redoStack }, none)

/-- `Calculator.redo` (`app/calculator.py`, lines 198-214) together with
`CalculatorCaretaker.redo` (`app/calculator_memento.py`, lines 73-90): a
guard on `can_redo` raises `HistoryError`; otherwise the top of the redo
stack moves back onto the undo stack and becomes the history (via
`set_history`). -/
def calculator_redo (maxSize : ℕ) (s : CalcState) : CalcState × Option CalcError :=
  if can_redo s = false then (s, some (CalcError.historyError "Nothing to redo"))
  else
    match s.redoStack with
    | [] => (s, some (CalcError.historyError "Nothing to redo"))
    | top :: rest =>
        ({ history := set_history maxSize top, undoStack := top :: s.undoStack,
           redoStack := rest }, none)

/-- `Calculator.clear_history` (`app/calculator.py`, lines 216-221): clear
the history and both caretaker stacks. -/
def clear_history (_s : CalcState) : CalcState :=
  { history := [], undoStack := [], redoStack := [] }

/-- `Calculator.load_history` (`app/calculator.py`, lines 240-255): runs
`load_from_csv` on the history; the caretaker is not touched and no
snapshot is saved.  Both the success and the failure state are returned as
left by `load_from_csv`. -/
def load_history (maxSize : ℕ) (s : CalcState) (f : CsvFile) :
    CalcState × Option CalcError :=
  match load_from_csv maxSize s.history f with
  | (h, some e) => ({ s with history := h }, some (CalcError.historyError e))
  | (h, none) => ({ s with history := h }, none)

/-- The observers that can sit in `Calculator.observers`
(`app/calculator.py`): the built-in `LoggingObserver` and `AutoSaveObserver`
(the latter tagged with whether its `save_to_csv` call would fail), and an
arbitrary further `CalculatorObserver` subclass tagged with whether its
handler raises. -/
inductive ObserverKind where
  | logging
  | autoSave (saveFails : Bool)
  | custom (raises : Bool)
deriving DecidableEq, Repr

/-- Whether `on_calculation_performed` raises for this observer.
`LoggingObserver.on_calculation_performed` only logs; `AutoSaveObserver`
(`app/calculator.py`, lines 72-77) wraps its `save_to_csv` call in
`try/except Exception`, so it never raises even when saving fails. -/
def observerRaises : ObserverKind → Bool
  | ObserverKind.logging => false
  | ObserverKind.autoSave _ => false
  | ObserverKind.custom r => r

/-- `Calculator.notify_observers` (`app/calculator.py`, lines 129-137): a
bare `for` loop calling each handler in registration order with no
exception handling.  Returns the (observer, calculation) deliveries that
were actually made — a raising handler is still invoked — together with the
propagated exception, if any. -/
def notify_observers (obs : List ObserverKind) (c : Calculation) :
    List (ObserverKind × Calculation) × Option String :=
  match obs with
  | [] => ([], none)
  | o :: rest =>
      if observerRaises o then ([(o, c)], some "observer raised")
      else
        let (d, e) := notify_observers rest c
        ((o, c) :: d, e)

/-- A `Calculation` as a Python object: the record value together with an
object identity (`id()`).  `Calculation` (`app/calculation.py`, lines 7-24)
defines no `__eq__`, so `==` falls back to `object.__eq__`. -/
structure PyCalcObject where
  oid : ℕ
  val : Calculation
deriving DecidableEq, Repr

/-- Python `==` between two `Calculation` objects: the class defines no
`__eq__`, so the default identity comparison applies. -/
def calcPyEq (x y : PyCalcObject) : Bool := decide (x.oid = y.oid)

/-- States reachable through the calculator's full public surface: the
constructor, successful `perform_calculation`, successful `undo` / `redo`,
`clear_history`, and `load_history` (success or failure — a failed load
also mutates).  Calls that raise without mutating return the same state
and need no constructor.  `cfg = (max_history_size, precision,
max_input_value)`. -/
inductive ReachableFull (cfg : ℕ × ℕ × ℚ)
    (exec : String → ℚ → ℚ → Except String ℚ) : CalcState → Prop where
  | init : ReachableFull cfg exec initState
  | perform {s s' ev r op a b tick} (prev : ReachableFull cfg exec s)
      (h : perform_calculation cfg exec s op a b tick = (s', ev, Except.ok r)) :
      ReachableFull cfg exec s'
  | undo_step {s s'} (prev : ReachableFull cfg exec s)
      (h : calculator_undo cfg.1 s = (s', none)) : ReachableFull cfg exec s'
  | redo_step {s s'} (prev : ReachableFull cfg exec s)
      (h : calculator_redo cfg.1 s = (s', none)) : ReachableFull cfg exec s'
  | clear_step {s} (prev : ReachableFull cfg exec s) :
      ReachableFull cfg exec (clear_history s)
  | load_step {s} (f : CsvFile) (prev : ReachableFull cfg exec s) :
      ReachableFull cfg exec (load_history cfg.1 s f).1

/-- States reachable through the engine operations alone — the constructor,
successful `perform_calculation`, successful `undo` / `redo`, and
`clear_history` — with no intervening `load_history`. -/
inductive EngineReachable (cfg : ℕ × ℕ × ℚ)
    (exec : String → ℚ → ℚ → Except String ℚ) : CalcState → Prop where
  | init : EngineReachable cfg exec initState
  | perform {s s' ev r op a b tick} (prev : EngineReachable cfg exec s)
      (h : perform_calculation cfg exec s op a b tick = (s', ev, Except.ok r)) :
      EngineReachable cfg exec s'
  | undo_step {s s'} (prev : EngineReachable cfg exec s)
      (h : calculator_undo cfg.1 s = (s', none)) : EngineReachable cfg exec s'
  | redo_step {s s'} (prev : EngineReachable cfg exec s)
      (h : calculator_redo cfg.1 s = (s', none)) : EngineReachable cfg exec s'
  | clear_step {s} (prev : EngineReachable cfg exec s) :
      EngineReachable cfg exec (clear_history s)

/-- The snapshot-consistency invariant maintained by the engine operations
(but not by `load_history`): the top of the undo stack is the current
history (or the history is empty when the stack is), and the history and
every stacked memento are already trimmed to `maxSize`. -/
def StateInv (maxSize : ℕ) (s : CalcState) : Prop :=
  (match s.undoStack with
   | [] => s.history = []
   | top :: _ => top = s.history) ∧
  trimHistory maxSize s.history = s.history ∧
  (∀ h ∈ s.undoStack, trimHistory maxSize h = h) ∧
  (∀ h ∈ s.redoStack, trimHistory maxSize h = h)

/-- `k` successive `Calculator.undo` calls, keeping only the state (a call
that raises leaves the state unchanged, as in the source). -/
def undoN (m : ℕ) : ℕ → CalcState → CalcState
  | 0, s => s
  | n + 1, s => undoN m n (calculator_undo m s).1

/-- The record created by `perform_calculation("add", 1, 2)` at tick 0. -/
def addCalc0 : Calculation :=
  { operation := "add", operand1 := 1, operand2 := 2, result := 3, timestamp := 0 }

/-- The record created by `perform_calculation("add", 1, 2)` at tick 1. -/
def addCalc1 : Calculation :=
  { operation := "add", operand1 := 1, operand2 := 2, result := 3, timestamp := 1 }

/-- Default-like engine configuration used in concrete instances:
`max_history_size = 100`, `precision = 2`, `max_input_value = 1e10`. -/
def cfgEx : ℕ × ℕ × ℚ := (100, 2, 10000000000)

/-- A concrete calculation record used in concrete instances. -/
def rowC : Calculation :=
  { operation := "add", operand1 := 1, operand2 := 1, result := 2, timestamp := 0 }

/-- A fresh calculator after a successful `load_history` of a one-row file. -/
def loadedStateEx : CalcState :=
  (load_history 100 initState (CsvFile.rows [Except.ok rowC])).1

/-- `loadedStateEx` after one successful `perform_calculation("add", 1, 2)`. -/
def afterPerformEx : CalcState :=
  (perform_calculation cfgEx executeOperation loadedStateEx "add" 1 2 1).1

/-- A fresh calculator after one successful `perform_calculation("add", 1, 2)`. -/
def s1Ex : CalcState :=
  (perform_calculation cfgEx executeOperation initState "add" 1 2 0).1

/-- A three-row file whose last row is malformed. -/
def badRowsFileEx : CsvFile :=
  CsvFile.rows [Except.ok rowC, Except.ok rowC, Except.error "bad row"]

/-- A one-row file whose only row is malformed. -/
def badRowFileEx : CsvFile := CsvFile.rows [Except.error "bad row"]


theorem pySliceLast_zero (l : List α) : pySliceLast 0 l = l := by
  simp [pySliceLast]

theorem trimHistory_zero (l : List α) : trimHistory 0 l = l := by
  unfold trimHistory
  split
  · exact pySliceLast_zero l
  · rfl

theorem trimHistory_eq_drop (hm : 1 ≤ m) (l : List α) :
    trimHistory m l = l.drop (l.length - m) := by
  unfold trimHistory pySliceLast
  have hm0 : m ≠ 0 := Nat.one_le_iff_ne_zero.mp hm
  by_cases h : m < l.length
  · simp [h, hm0]
  · have : l.length - m = 0 := by omega
    simp [h, this]

theorem trimHistory_nil (m : ℕ) : trimHistory m ([] : List α) = [] := by
  unfold trimHistory
  simp

theorem trimHistory_of_le (h : l.length ≤ m) : trimHistory m (l : List α) = l := by
  unfold trimHistory
  have : ¬ m < l.length := by omega
  simp [this]

theorem trimHistory_length_le (hm : 1 ≤ m) (l : List α) :
    (trimHistory m l).length ≤ m := by
  rw [trimHistory_eq_drop hm, List.length_drop]
  omega

theorem trimHistory_idem (m : ℕ) (l : List α) :
    trimHistory m (trimHistory m l) = trimHistory m l := by
  rcases Nat.eq_zero_or_pos m with h0 | h1
  · subst h0; rw [trimHistory_zero, trimHistory_zero]
  · exact trimHistory_of_le (trimHistory_length_le h1 l)

theorem trimHistory_cons (hm : 1 ≤ m) (h : m ≤ l.length) (a : α) :
    trimHistory m (a :: l) = trimHistory m l := by
  rw [trimHistory_eq_drop hm, trimHistory_eq_drop hm]
  have : (a :: l).length - m = (l.length - m) + 1 := by
    simp only [List.length_cons]; omega
  rw [this, List.drop_succ_cons]

theorem trimHistory_append_left (m : ℕ) (x y : List α) :
    trimHistory m (trimHistory m x ++ y) = trimHistory m (x ++ y) := by
  rcases Nat.eq_zero_or_pos m with h0 | h1
  · subst h0; rw [trimHistory_zero, trimHistory_zero, trimHistory_zero]
  · induction x with
    | nil => rw [trimHistory_nil]
    | cons a x ih =>
      by_cases hx : (a :: x).length ≤ m
      · rw [trimHistory_of_le hx]
      · have hxm : m ≤ x.length := by simp only [List.length_cons] at hx; omega
        have hxym : m ≤ (x ++ y).length := by
          rw [List.length_append]; omega
        rw [trimHistory_cons h1 hxm, ih, List.cons_append, trimHistory_cons h1 hxym]

theorem foldl_add_calculation (k : ℕ) :
    ∀ (inputs : List Calculation) (acc : List Calculation),
      trimHistory k acc = acc →
      List.foldl (add_calculation k) acc inputs = trimHistory k (acc ++ inputs) := by
  intro inputs
  induction inputs with
  | nil =>
    intro acc hacc
    simpa using hacc.symm
  | cons c cs ih =>
    intro acc hacc
    rw [List.foldl_cons]
    have step : add_calculation k acc c = trimHistory k (acc ++ [c]) := rfl
    rw [step, ih _ (trimHistory_idem k _)]
    rw [trimHistory_append_left]
    simp

/-- Shape of a successful `perform_calculation`: it appends one new record,
pushes the post-append history as a memento, and clears the redo stack;
the new record is the one handed to the observers. -/
theorem perform_ok_shape {cfg exec s op a b tick s' ev r}
    (h : perform_calculation cfg exec s op a b tick = (s', ev, Except.ok r)) :
    ∃ c : Calculation,
      s'.history = add_calculation cfg.1 s.history c ∧
      s'.undoStack = s'.history :: s.undoStack ∧
      s'.redoStack = [] ∧ ev = [c] := by
  obtain ⟨m, p, mx⟩ := cfg
  simp only [perform_calculation] at h
  split at h
  · simp at h
  · split at h
    · simp at h
    · split at h
      · simp at h
      · simp only [Prod.mk.injEq] at h
        obtain ⟨hs, hev, hr⟩ := h
        refine ⟨_, ?_, ?_, ?_, hev.symm⟩
        · rw [← hs]
        · rw [← hs]
        · rw [← hs]

theorem trimHistory_add_calculation (m : ℕ) (h : List Calculation) (c : Calculation) :
    trimHistory m (add_calculation m h c) = add_calculation m h c :=
  trimHistory_idem m (h ++ [c])

/-- Shape of a successful `calculator_undo`: the undo stack was non-empty,
its top moved to the redo stack, and the history became the (trimmed) new
top, or the empty snapshot if none remains. -/
theorem undo_ok_shape {m : ℕ} {s s' : CalcState}
    (h : calculator_undo m s = (s', none)) :
    ∃ top rest, s.undoStack = top :: rest ∧
      s' = { history :=
               set_history m (match rest with | [] => [] | p :: _ => p),
             undoStack := rest, redoStack := top :: s.redoStack } := by
  unfold calculator_undo at h
  split at h
  · simp at h
  · split at h
    · simp at h
    · rename_i heq
      simp only [Prod.mk.injEq] at h
      exact ⟨_, _, heq, h.1.symm⟩

/-- Shape of a successful `calculator_redo`: the redo stack was non-empty,
its top moved back onto the undo stack and became the (trimmed) history. -/
theorem redo_ok_shape {m : ℕ} {s s' : CalcState}
    (h : calculator_redo m s = (s', none)) :
    ∃ top rest, s.redoStack = top :: rest ∧
      s' = { history := set_history m top, undoStack := top :: s.undoStack,
             redoStack := rest } := by
  unfold calculator_redo at h
  split at h
  · simp at h
  · split at h
    · simp at h
    · rename_i heq
      simp only [Prod.mk.injEq] at h
      exact ⟨_, _, heq, h.1.symm⟩

/-- Every state reachable through the engine operations (no `load_history`)
satisfies the snapshot-consistency invariant. -/
theorem engineReachable_stateInv {cfg : ℕ × ℕ × ℚ}
    {exec : String → ℚ → ℚ → Except String ℚ} {s : CalcState}
    (h : EngineReachable cfg exec s) : StateInv cfg.1 s := by
  induction h with
  | init =>
    refine ⟨rfl, trimHistory_nil _, ?_, ?_⟩
    · intro x hx
      simp only [initState, List.mem_singleton] at hx
      subst hx
      exact trimHistory_nil _
    · intro x hx
      simp [initState] at hx
  | perform prev hp ih =>
    obtain ⟨c, hh, hu, hr, hev⟩ := perform_ok_shape hp
    obtain ⟨inv1, inv2, inv3, inv4⟩ := ih
    refine ⟨?_, ?_, ?_, ?_⟩
    · rw [hu]
    · rw [hh]
      exact trimHistory_add_calculation _ _ _
    · intro x hx
      rw [hu] at hx
      rcases List.mem_cons.mp hx with hx1 | hx2
      · subst hx1
        rw [hh]
        exact trimHistory_add_calculation _ _ _
      · exact inv3 x hx2
    · intro x hx
      rw [hr] at hx
      simp at hx
  | undo_step prev hu ih =>
    obtain ⟨top, rest, hstack, hs'⟩ := undo_ok_shape hu
    obtain ⟨inv1, inv2, inv3, inv4⟩ := ih
    subst hs'
    refine ⟨?_, ?_, ?_, ?_⟩
    · cases rest with
      | nil =>
        show ([] : List Calculation) = set_history cfg.1 []
        rw [set_history, trimHistory_nil]
      | cons p ps =>
        show p = set_history cfg.1 p
        have : trimHistory cfg.1 p = p :=
          inv3 p (by rw [hstack]; exact List.mem_cons_of_mem _ (List.mem_cons_self _ _))
        rw [set_history, this]
    · exact trimHistory_idem _ _
    · intro x hx
      exact inv3 x (by rw [hstack]; exact List.mem_cons_of_mem _ hx)
    · intro x hx
      rcases List.mem_cons.mp hx with hx1 | hx2
      · subst hx1
        exact inv3 x (by rw [hstack]; exact List.mem_cons_self _ _)
      · exact inv4 x hx2
  | redo_step prev hr ih =>
    obtain ⟨top, rest, hstack, hs'⟩ := redo_ok_shape hr
    obtain ⟨inv1, inv2, inv3, inv4⟩ := ih
    have htop : trimHistory cfg.1 top = top :=
      inv4 top (by rw [hstack]; exact List.mem_cons_self _ _)
    subst hs'
    refine ⟨?_, ?_, ?_, ?_⟩
    · show top = set_history cfg.1 top
      rw [set_history, htop]
    · exact trimHistory_idem _ _
    · intro x hx
      rcases List.mem_cons.mp hx with hx1 | hx2
      · subst hx1; exact htop
      · exact inv3 x hx2
    · intro x hx
      exact inv4 x (by rw [hstack]; exact List.mem_cons_of_mem _ hx)
  | clear_step prev ih =>
    refine ⟨rfl, trimHistory_nil _, ?_, ?_⟩
    · intro x hx; simp [clear_history] at hx
    · intro x hx; simp [clear_history] at hx

theorem undo_fail (m : ℕ) (s : CalcState) (h : s.undoStack = []) :
    calculator_undo m s = (s, some (CalcError.historyError "Nothing to undo")) := by
  unfold calculator_undo
  have hc : can_undo s = false := by simp [can_undo, h]
  rw [hc]
  simp

theorem redo_fail (m : ℕ) (s : CalcState) (h : s.redoStack = []) :
    calculator_redo m s = (s, some (CalcError.historyError "Nothing to redo")) := by
  unfold calculator_redo
  have hc : can_redo s = false := by simp [can_redo, h]
  rw [hc]
  simp

theorem undo_step_cons (m : ℕ) (top : List Calculation)
    (rest : List (List Calculation)) (hist : List Calculation)
    (rs : List (List Calculation)) :
    calculator_undo m ⟨hist, top :: rest, rs⟩ =
      (⟨set_history m (match rest with | [] => [] | p :: _ => p), rest,
        top :: rs⟩, none) := by
  simp [calculator_undo, can_undo]

theorem redo_step_cons (m : ℕ) (top : List Calculation)
    (rest : List (List Calculation)) (hist : List Calculation)
    (us : List (List Calculation)) :
    calculator_redo m ⟨hist, us, top :: rest⟩ =
      (⟨set_history m top, top :: us, rest⟩, none) := by
  simp [calculator_redo, can_redo]

theorem undo_ok_of_ne (m : ℕ) (s : CalcState) (h : s.undoStack ≠ []) :
    (calculator_undo m s).2 = none := by
  obtain ⟨hist, us, rs⟩ := s
  cases us with
  | nil => exact absurd rfl h
  | cons top rest => rw [undo_step_cons]

theorem undoN_undoStack (m : ℕ) :
    ∀ (k : ℕ) (s : CalcState), (undoN m k s).undoStack = s.undoStack.drop k := by
  intro k
  induction k with
  | zero => intro s; simp [undoN]
  | succ n ih =>
    intro s
    rw [undoN, ih]
    cases hstack : s.undoStack with
    | nil =>
      rw [undo_fail m s hstack, hstack]
      simp [hstack]
    | cons top rest =>
      obtain ⟨hist, us, rs⟩ := s
      simp only at hstack
      subst hstack
      rw [undo_step_cons]
      simp

/-- Undoing as many times as the undo stack is deep empties both the stack
and the history and moves every memento, in reverse order, onto the redo
stack. -/
theorem undoN_full (m : ℕ) :
    ∀ (ms : List (List Calculation)) (s : CalcState),
      s.undoStack = ms → ms ≠ [] →
      undoN m ms.length s =
        { history := [], undoStack := [],
          redoStack := ms.reverse ++ s.redoStack } := by
  intro ms
  induction ms with
  | nil => intro s _ hne; exact absurd rfl hne
  | cons top rest ih =>
    intro s hstack _
    obtain ⟨hist, us, rs⟩ := s
    simp only at hstack
    subst hstack
    show undoN m (rest.length + 1) ⟨hist, top :: rest, rs⟩ = _
    rw [undoN, undo_step_cons]
    cases rest with
    | nil =>
      show undoN m 0 _ = _
      simp [undoN, set_history, trimHistory_nil]
    | cons p ps =>
      have step := ih ⟨set_history m p, p :: ps, top :: rs⟩ rfl (by simp)
      rw [step]
      simp

theorem reverse_eq_getLastD_cons {ms : List α} (hne : ms ≠ []) (d : α) :
    ∃ l, ms.reverse = ms.getLastD d :: l := by
  rcases List.eq_nil_or_concat ms with h | ⟨l, a, rfl⟩
  · exact absurd h hne
  · refine ⟨l.reverse, ?_⟩
    simp [List.concat_eq_append, List.getLastD_concat]

/-- C10: on a freshly constructed `Calculator` the constructor has pushed an
initial empty snapshot, so `can_undo()` is already true, the first `undo()`
succeeds and leaves the history empty, and only the next `undo()` raises
`HistoryError`. -/
theorem fresh_undo_succeeds (m : ℕ) :
    can_undo initState = true ∧
    (calculator_undo m initState).2 = none ∧
    (calculator_undo m initState).1.history = [] ∧
    (calculator_undo m (calculator_undo m initState).1).2 =
      some (CalcError.historyError "Nothing to undo") := by
  have h1 : calculator_undo m initState =
      (⟨set_history m [], [], [[]]⟩, none) := by
    show calculator_undo m ⟨[], [[]], []⟩ = _
    rw [undo_step_cons]
  refine ⟨rfl, ?_, ?_, ?_⟩
  · rw [h1]
  · rw [h1]
    show set_history m [] = []
    rw [set_history, trimHistory_nil]
  · rw [h1]
    show (calculator_undo m ⟨set_history m [], [], [[]]⟩).2 = _
    rw [undo_fail m _ rfl]

/-- C8 counterexample: two distinct `Calculation` objects with identical
field values compare unequal under Python `==`, because the class defines
no `__eq__` and the default identity comparison applies. -/
theorem calc_eq_field_value_counterexample :
    ({ oid := 0, val := rowC } : PyCalcObject).val =
      ({ oid := 1, val := rowC } : PyCalcObject).val ∧
    calcPyEq { oid := 0, val := rowC } { oid := 1, val := rowC } = false := by
  exact ⟨rfl, rfl⟩

/-- C8 (amended): `Calculation` equality is by object identity — a
`Calculation` object equals exactly the objects with its own identity, so
it equals itself, and field-equal but distinct objects are unequal. -/
theorem calc_eq_identity_amended :
    ∀ x y : PyCalcObject, calcPyEq x y = true ↔ x.oid = y.oid := by
  intro x y
  simp [calcPyEq]

/-- C7 counterexample: with a raising observer registered first, its
exception propagates out of `notify_observers` and the later (logging)
observer is never invoked, contrary to the claim. -/
theorem notify_raising_observer_counterexample :
    (notify_observers [ObserverKind.custom true, ObserverKind.logging] rowC).2 ≠
      none ∧
    (ObserverKind.logging, rowC) ∉
      (notify_observers [ObserverKind.custom true, ObserverKind.logging] rowC).1 := by
  exact ⟨by decide, by decide⟩

/-- C7 (amended): `notify_observers` invokes the handlers synchronously in
registration order, and delivery to every registered observer is guaranteed
when no handler raises; the built-in `AutoSaveObserver` catches its own save
failures and so never raises; but a handler that does raise stops delivery
to the observers after it and propagates to the caller of `perform`. -/
theorem notify_delivery_amended :
    (∀ (obs : List ObserverKind) (c : Calculation),
      (∀ o ∈ obs, observerRaises o = false) →
      notify_observers obs c = (obs.map (fun o => (o, c)), none)) ∧
    (∀ b : Bool, observerRaises (ObserverKind.autoSave b) = false) ∧
    (∀ (o : ObserverKind) (rest : List ObserverKind) (c : Calculation),
      observerRaises o = true →
      notify_observers (o :: rest) c = ([(o, c)], some "observer raised")) := by
  refine ⟨?_, fun _ => rfl, ?_⟩
  · intro obs c hobs
    induction obs with
    | nil => rfl
    | cons o rest ih =>
      have ho : observerRaises o = false := hobs o (List.mem_cons_self _ _)
      have hrest := ih (fun x hx => hobs x (List.mem_cons_of_mem _ hx))
      simp only [notify_observers, ho, Bool.false_eq_true, if_false, hrest,
        List.map_cons]
  · intro o rest c ho
    simp only [notify_observers, ho, if_true]

/-- Closed instance of C7's amended theorem: both built-in observers (with
the auto-save one failing to save) receive the calculation, in order,
with no exception. -/
theorem notify_delivery_amended_witness :
    notify_observers [ObserverKind.logging, ObserverKind.autoSave true] rowC =
      ([(ObserverKind.logging, rowC), (ObserverKind.autoSave true, rowC)],
       none) := by
  have h := notify_delivery_amended.1
    [ObserverKind.logging, ObserverKind.autoSave true] rowC (by decide)
  simpa using h

/-- C9 counterexample: `root(0, -2)` fails with `OperationError` — the
source computes `0.0 ** (1 / -2)`, raising `ZeroDivisionError`, which
`operations.py` lines 127-128 re-raise as `OperationError` — even though
`b ≠ 0` and `a` is not negative, so the claimed "fails iff `b == 0` or
(`a < 0` and `b` even)" is false at `a = 0, b = -2`. -/
theorem root_zero_negative_counterexample :
    (∃ e, root_execute 0 (-2) = Except.error e) ∧
    ¬((-2 : ℚ) = 0 ∨ ((0 : ℚ) < 0 ∧ pymod (-2) 2 = 0)) := by
  constructor
  · exact ⟨_, by
      rw [root_execute, if_neg (by norm_num : ¬(-2 : ℚ) = 0),
        if_neg (by simp : ¬((0 : ℚ) < 0 ∧ pymod (-2) 2 = 0)),
        if_neg (by norm_num : ¬(0 : ℚ) < 0),
        if_pos (⟨rfl, by norm_num⟩ : (0 : ℚ) = 0 ∧ (-2 : ℚ) < 0)]⟩
  · intro h
    rcases h with h | ⟨h, -⟩
    · norm_num at h
    · norm_num at h

/-- C9 (amended): `root(a, b)` fails exactly when `b == 0`, or `a < 0` and
`b` is even (`b % 2 == 0`), or `a == 0` and `b < 0` (where `0.0 ** (1/b)`
raises `ZeroDivisionError`, caught and re-raised as `OperationError`); an
odd root of a negative number is returned with a negative sign;
`root(-8, 3)` evaluates to `-2` (the exact value of the Python
approximation); `root(-9, 2)` fails. -/
theorem root_error_and_sign :
    (∀ a b : ℚ, (∃ e, root_execute a b = Except.error e) ↔
      (b = 0 ∨ (a < 0 ∧ pymod b 2 = 0) ∨ (a = 0 ∧ b < 0))) ∧
    (∀ a b : ℚ, a < 0 → pymod b 2 ≠ 0 →
      ∃ r : ℝ, root_execute a b = Except.ok r ∧ r < 0) ∧
    root_execute (-8) 3 = Except.ok (-2) ∧
    (∃ e, root_execute (-9) 2 = Except.error e) := by
  have hok : ∀ a b : ℚ, b ≠ 0 → ¬(a < 0 ∧ pymod b 2 = 0) → ¬(a = 0 ∧ b < 0) →
      ¬(∃ e, root_execute a b = Except.error e) := by
    intro a b hb hev hz he
    obtain ⟨e, he⟩ := he
    unfold root_execute at he
    rw [if_neg hb, if_neg hev] at he
    by_cases ha : a < 0
    · rw [if_pos ha] at he
      exact Except.noConfusion he
    · rw [if_neg ha, if_neg hz] at he
      exact Except.noConfusion he
  have hsign : ∀ a b : ℚ, a < 0 → pymod b 2 ≠ 0 →
      ∃ r : ℝ, root_execute a b = Except.ok r ∧ r < 0 := by
    intro a b ha hodd
    have hb : b ≠ 0 := by
      intro hb0
      apply hodd
      rw [hb0]
      norm_num [pymod]
    have hev : ¬(a < 0 ∧ pymod b 2 = 0) := fun h => hodd h.2
    refine ⟨-(((|a| : ℚ) : ℝ) ^ ((1 : ℝ) / ((b : ℚ) : ℝ))), ?_, ?_⟩
    · rw [root_execute, if_neg hb, if_neg hev, if_pos ha]
    · have habs : (0 : ℝ) < ((|a| : ℚ) : ℝ) := by
        rw [Rat.cast_pos]
        exact abs_pos.mpr (ne_of_lt ha)
      have hpos := Real.rpow_pos_of_pos habs ((1 : ℝ) / ((b : ℚ) : ℝ))
      linarith
  refine ⟨?_, hsign, ?_, ?_⟩
  · intro a b
    constructor
    · intro he
      by_cases hb : b = 0
      · exact Or.inl hb
      · by_cases hev : a < 0 ∧ pymod b 2 = 0
        · exact Or.inr (Or.inl hev)
        · by_cases hz : a = 0 ∧ b < 0
          · exact Or.inr (Or.inr hz)
          · exact absurd he (hok a b hb hev hz)
    · rintro (hb | hev | hz)
      · exact ⟨_, by rw [root_execute, if_pos hb]⟩
      · by_cases hb : b = 0
        · exact ⟨_, by rw [root_execute, if_pos hb]⟩
        · exact ⟨_, by rw [root_execute, if_neg hb, if_pos hev]⟩
      · have hb : b ≠ 0 := ne_of_lt hz.2
        have hev : ¬(a < 0 ∧ pymod b 2 = 0) := by
          rintro ⟨ha, -⟩
          rw [hz.1] at ha
          exact absurd ha (by norm_num)
        have ha : ¬ a < 0 := by
          rw [hz.1]
          norm_num
        exact ⟨_, by rw [root_execute, if_neg hb, if_neg hev, if_neg ha,
          if_pos hz]⟩
  · have h2 : ¬((-8 : ℚ) < 0 ∧ pymod 3 2 = 0) := by norm_num [pymod]
    rw [root_execute, if_neg (by norm_num : ¬(3 : ℚ) = 0), if_neg h2,
      if_pos (by norm_num : (-8 : ℚ) < 0)]
    have habs : ((|(-8 : ℚ)| : ℚ) : ℝ) = 8 := by norm_num
    have hcast : (((3 : ℚ) : ℝ)) = 3 := by norm_num
    rw [habs, hcast]
    have hval : (8 : ℝ) ^ ((1 : ℝ) / 3) = 2 := by
      rw [show (8 : ℝ) = (2 : ℝ) ^ (3 : ℕ) by norm_num,
        ← Real.rpow_natCast 2 3,
        ← Real.rpow_mul (by norm_num : (0 : ℝ) ≤ 2)]
      norm_num
    rw [hval]
  · have h2 : ((-9 : ℚ) < 0 ∧ pymod 2 2 = 0) := by
      constructor
      · norm_num
      · norm_num [pymod]
    exact ⟨_, by rw [root_execute, if_neg (by norm_num : ¬(2 : ℚ) = 0),
      if_pos h2]⟩

/-- Closed instance of C9's amended theorem: `root(9, 0)` fails, and
`root(-27, 3)` succeeds with a negative result. -/
theorem root_error_and_sign_witness :
    (∃ e, root_execute 9 0 = Except.error e) ∧
    (∃ r : ℝ, root_execute (-27) 3 = Except.ok r ∧ r < 0) := by
  constructor
  · exact (root_error_and_sign.1 9 0).mpr (Or.inl rfl)
  · exact root_error_and_sign.2.1 (-27) 3 (by norm_num) (by norm_num [pymod])

/-- C2 counterexample: with `max_size = 1`, loading a file whose first two
rows parse and whose third is malformed raises `HistoryError` but leaves
two entries in the store — more than `max_size` — because the trim step
only runs after a fully successful row loop. -/
theorem history_bound_failed_load_counterexample :
    ¬ ((load_from_csv 1 [] badRowsFileEx).1.length ≤ 1) := by
  simp [load_from_csv, parse_rows, badRowsFileEx]

/-- C2 (amended): `N` adds with `max_size = k ≥ 1` leave exactly
`min(N, k)` entries, the most recent inputs in insertion order; the bound
`len ≤ max_size` holds after every `add`, every `set_all`, and every
successful `load` — but not necessarily after a failed load, which can
leave the unparsed-row prefix untrimmed. -/
theorem history_bound_amended :
    (∀ (k : ℕ) (inputs : List Calculation), 1 ≤ k →
      inputs.foldl (add_calculation k) [] =
        inputs.drop (inputs.length - k) ∧
      (inputs.foldl (add_calculation k) []).length = min inputs.length k) ∧
    (∀ (k : ℕ) (h : List Calculation) (c : Calculation), 1 ≤ k →
      (add_calculation k h c).length ≤ k) ∧
    (∀ (k : ℕ) (h : List Calculation), 1 ≤ k → (set_history k h).length ≤ k) ∧
    (∀ (k : ℕ) (h s : List Calculation) (f : CsvFile), 1 ≤ k →
      load_from_csv k h f = (s, none) → s.length ≤ k) := by
  refine ⟨?_, ?_, ?_, ?_⟩
  · intro k inputs hk
    have hfold := foldl_add_calculation k inputs [] (trimHistory_nil k)
    rw [List.nil_append] at hfold
    refine ⟨?_, ?_⟩
    · rw [hfold, trimHistory_eq_drop hk]
    · rw [hfold, trimHistory_eq_drop hk, List.length_drop]
      omega
  · intro k h c hk
    exact trimHistory_length_le hk _
  · intro k h hk
    exact trimHistory_length_le hk _
  · intro k h s f hk hload
    cases f with
    | missing => simp [load_from_csv] at hload
    | empty =>
      simp [load_from_csv] at hload
      subst hload
      simp
    | rows rs =>
      simp only [load_from_csv] at hload
      cases hp : parse_rows rs with
      | mk p e =>
        rw [hp] at hload
        cases e with
        | some err => simp at hload
        | none =>
          simp only [Prod.mk.injEq] at hload
          rw [← hload.1]
          exact trimHistory_length_le hk _

/-- Closed instance of C2's amended theorem: two adds at capacity 1 keep
only the later entry, and a successful three-row load at capacity 2 is
trimmed to two entries. -/
theorem history_bound_amended_witness :
    [rowC, rowC].foldl (add_calculation 1) [] =
      [rowC, rowC].drop ([rowC, rowC].length - 1) ∧
    ([rowC, rowC].foldl (add_calculation 1) []).length = min [rowC, rowC].length 1 ∧
    (add_calculation 1 [rowC] rowC).length ≤ 1 ∧
    (set_history 1 [rowC, rowC]).length ≤ 1 := by
  refine ⟨(history_bound_amended.1 1 [rowC, rowC] (by decide)).1,
    (history_bound_amended.1 1 [rowC, rowC] (by decide)).2,
    history_bound_amended.2.1 1 [rowC] rowC (by decide),
    history_bound_amended.2.2.1 1 [rowC, rowC] (by decide)⟩

/-- C6 counterexample: a load that fails on a malformed row is not atomic —
the pre-load contents are cleared (the store is left holding the parsed
prefix, here empty) even though the call raises `HistoryError`. -/
theorem load_failure_not_atomic_counterexample :
    (load_from_csv 100 [rowC] badRowFileEx).2.isSome = true ∧
    (load_from_csv 100 [rowC] badRowFileEx).1 ≠ [rowC] := by
  refine ⟨rfl, ?_⟩
  simp [load_from_csv, parse_rows, badRowFileEx]

/-- C6 (amended): a load failing on a missing file is atomic (contents
unchanged); an empty file yields an empty store (no error); a fully parsed
file replaces the store with the rows trimmed to `max_size`; but a load
failing on a malformed row leaves the store cleared and holding the prefix
of rows parsed before the failure. -/
theorem load_behavior_amended :
    (∀ (k : ℕ) (h : List Calculation),
      (load_from_csv k h CsvFile.missing).1 = h ∧
      (load_from_csv k h CsvFile.missing).2.isSome = true) ∧
    (∀ (k : ℕ) (h : List Calculation),
      load_from_csv k h CsvFile.empty = ([], none)) ∧
    (∀ (k : ℕ) (h : List Calculation) (rs : List (Except String Calculation))
      (p : List Calculation), parse_rows rs = (p, none) →
      load_from_csv k h (CsvFile.rows rs) = (trimHistory k p, none)) ∧
    (∀ (k : ℕ) (h : List Calculation) (rs : List (Except String Calculation))
      (p : List Calculation) (e : String), parse_rows rs = (p, some e) →
      (load_from_csv k h (CsvFile.rows rs)).1 = p ∧
      (load_from_csv k h (CsvFile.rows rs)).2.isSome = true) := by
  refine ⟨fun k h => ⟨rfl, rfl⟩, fun k h => rfl, ?_, ?_⟩
  · intro k h rs p hp
    simp only [load_from_csv]
    rw [hp]
  · intro k h rs p e hp
    simp only [load_from_csv]
    rw [hp]
    exact ⟨rfl, rfl⟩

/-- Closed instance of C6's amended theorem: a fully parsed one-row file
replaces the contents, and the malformed one-row file clears them. -/
theorem load_behavior_amended_witness :
    load_from_csv 100 [] (CsvFile.rows [Except.ok rowC]) =
      (trimHistory 100 [rowC], none) ∧
    (load_from_csv 100 [rowC] (CsvFile.rows [Except.error "bad row"])).1 = [] := by
  refine ⟨load_behavior_amended.2.2.1 100 [] [Except.ok rowC] [rowC] rfl,
    (load_behavior_amended.2.2.2 100 [rowC] [Except.error "bad row"] []
      "bad row" rfl).1⟩

/-- C5: when `perform_calculation` raises (`ValidationError` from operand
validation or `OperationError` from lookup/execution), it does so before
any mutation: the returned state is exactly the input state, no observer
is notified, and the error is one of those two kinds (never a
`HistoryError`). -/
theorem perform_error_no_mutation {cfg : ℕ × ℕ × ℚ}
    {exec : String → ℚ → ℚ → Except String ℚ} {s s' : CalcState}
    {op : String} {a b : ℚ} {tick : ℕ} {ev : List Calculation} {e : CalcError}
    (h : perform_calculation cfg exec s op a b tick = (s', ev, Except.error e)) :
    s' = s ∧ ev = [] ∧
    ((∃ msg, e = CalcError.validationError msg) ∨
     (∃ msg, e = CalcError.operationError msg)) := by
  obtain ⟨m, p, mx⟩ := cfg
  simp only [perform_calculation] at h
  split at h
  · simp only [Prod.mk.injEq] at h
    obtain ⟨hs, hev, he⟩ := h
    exact ⟨hs.symm, hev.symm, Or.inl ⟨_, (Except.error.injEq .. ▸ he.symm :)⟩⟩
  · split at h
    · simp only [Prod.mk.injEq] at h
      obtain ⟨hs, hev, he⟩ := h
      exact ⟨hs.symm, hev.symm, Or.inl ⟨_, (Except.error.injEq .. ▸ he.symm :)⟩⟩
    · split at h
      · simp only [Prod.mk.injEq] at h
        obtain ⟨hs, hev, he⟩ := h
        exact ⟨hs.symm, hev.symm, Or.inr ⟨_, (Except.error.injEq .. ▸ he.symm :)⟩⟩
      · simp at h

/-- Evaluation of a dividing-by-zero `perform_calculation` on any state:
it raises `OperationError` and returns the state unchanged. -/
theorem perform_divide_zero_concrete (s : CalcState) (tick : ℕ) :
    perform_calculation cfgEx executeOperation s "divide" 10 0 tick =
      (s, [], Except.error
        (CalcError.operationError "Division by zero is not allowed")) := by
  have hv10 : validate_number 10 (some (10000000000 : ℚ)) = Except.ok 10 := by
    norm_num [validate_number]
  have hv0 : validate_number 0 (some (10000000000 : ℚ)) = Except.ok 0 := by
    norm_num [validate_number]
  have hex : executeOperation "divide" 10 0 =
      Except.error "Division by zero is not allowed" := by
    simp [executeOperation]
  simp [perform_calculation, cfgEx, hv10, hv0, hex]

/-- Closed instance of C5's theorem at the divide-by-zero input. -/
theorem perform_error_no_mutation_witness :
    loadedStateEx = loadedStateEx ∧ ([] : List Calculation) = [] ∧
    ((∃ msg, CalcError.operationError "Division by zero is not allowed" =
        CalcError.validationError msg) ∨
     (∃ msg, CalcError.operationError "Division by zero is not allowed" =
        CalcError.operationError msg)) :=
  perform_error_no_mutation (perform_divide_zero_concrete loadedStateEx 0)

/-- C4: a successful `perform_calculation` (in particular one following any
number of `undo` calls) saves a new snapshot, which clears the redo stack:
`can_redo()` becomes false and a subsequent `redo()` raises `HistoryError`. -/
theorem perform_clears_redo {cfg : ℕ × ℕ × ℚ}
    {exec : String → ℚ → ℚ → Except String ℚ} {s0 s1 s2 : CalcState}
    {op : String} {a b : ℚ} {tick : ℕ} {ev : List Calculation} {r : ℚ}
    (hundo : calculator_undo cfg.1 s0 = (s1, none))
    (hperf : perform_calculation cfg exec s1 op a b tick = (s2, ev, Except.ok r)) :
    s2.redoStack = [] ∧ can_redo s2 = false ∧
    (calculator_redo cfg.1 s2).2 =
      some (CalcError.historyError "Nothing to redo") := by
  obtain ⟨c, hh, hu, hr, hev⟩ := perform_ok_shape hperf
  refine ⟨hr, by simp [can_redo, hr], ?_⟩
  rw [redo_fail _ _ hr]

/-- Evaluation of a successful `perform_calculation("add", 1, 2)` on any
state: one record is appended, the post-append history is pushed as a
memento, the redo stack is cleared, and the observers are notified once. -/
theorem perform_add_concrete (s : CalcState) (tick : ℕ) :
    perform_calculation cfgEx executeOperation s "add" 1 2 tick =
      ({ history := add_calculation 100 s.history
           { operation := "add", operand1 := 1, operand2 := 2, result := 3,
             timestamp := tick },
         undoStack := add_calculation 100 s.history
           { operation := "add", operand1 := 1, operand2 := 2, result := 3,
             timestamp := tick } :: s.undoStack,
         redoStack := [] },
       [{ operation := "add", operand1 := 1, operand2 := 2, result := 3,
          timestamp := tick }], Except.ok 3) := by
  have hv1 : validate_number 1 (some (10000000000 : ℚ)) = Except.ok 1 := by
    norm_num [validate_number]
  have hv2 : validate_number 2 (some (10000000000 : ℚ)) = Except.ok 2 := by
    norm_num [validate_number]
  have hex : executeOperation "add" 1 2 = Except.ok 3 := by
    norm_num [executeOperation]
  have hr : pyRound 3 2 = 3 := by norm_num [pyRound]
  simp [perform_calculation, cfgEx, hv1, hv2, hex, hr]

/-- Closed instance of C4's theorem: undo once on `s1Ex` (one calculation
performed on a fresh calculator), then perform again; redo is impossible. -/
theorem perform_clears_redo_witness :
    (perform_calculation cfgEx executeOperation
        (calculator_undo 100 s1Ex).1 "add" 1 2 1).1.redoStack = [] ∧
    can_redo (perform_calculation cfgEx executeOperation
        (calculator_undo 100 s1Ex).1 "add" 1 2 1).1 = false ∧
    (calculator_redo 100 (perform_calculation cfgEx executeOperation
        (calculator_undo 100 s1Ex).1 "add" 1 2 1).1).2 =
      some (CalcError.historyError "Nothing to redo") := by
  have hne : s1Ex.undoStack ≠ [] := by
    show (perform_calculation cfgEx executeOperation initState
      "add" 1 2 0).1.undoStack ≠ []
    rw [perform_add_concrete]
    simp
  have hundo : calculator_undo cfgEx.1 s1Ex =
      ((calculator_undo 100 s1Ex).1, none) :=
    Prod.ext rfl (undo_ok_of_ne 100 s1Ex hne)
  have hperf := perform_add_concrete (calculator_undo 100 s1Ex).1 1
  have hres := perform_clears_redo hundo hperf
  rw [hperf]
  exact hres

/-- C1 (amended): for every state reachable through the engine operations
alone (constructor, `perform`, `undo`, `redo`, `clear` — no intervening
`load_history`), an `undo()` immediately after a successful
`perform(op, a, b)` succeeds and restores the history to exactly its
pre-`perform` contents.  `load_history` breaks this because it replaces
the history without saving a snapshot (see the counterexample). -/
theorem undo_after_perform_restores_pre_perform {cfg : ℕ × ℕ × ℚ}
    {exec : String → ℚ → ℚ → Except String ℚ} {s s' : CalcState}
    {op : String} {a b : ℚ} {tick : ℕ} {ev : List Calculation} {r : ℚ}
    (hreach : EngineReachable cfg exec s)
    (hperf : perform_calculation cfg exec s op a b tick = (s', ev, Except.ok r)) :
    (calculator_undo cfg.1 s').2 = none ∧
    (calculator_undo cfg.1 s').1.history = s.history := by
  obtain ⟨c, hh, hu, hr, hev⟩ := perform_ok_shape hperf
  obtain ⟨inv1, inv2, inv3, inv4⟩ := engineReachable_stateInv hreach
  obtain ⟨h', us', rs'⟩ := s'
  simp only at hh hu hr
  subst hu
  subst hr
  constructor
  · rw [undo_step_cons]
  · rw [undo_step_cons]
    cases hs : s.undoStack with
    | nil =>
      rw [hs] at inv1
      have h0 : s.history = [] := inv1
      show set_history cfg.1 [] = s.history
      rw [set_history, trimHistory_nil, h0]
    | cons p ps =>
      rw [hs] at inv1
      have hp : p = s.history := inv1
      have hptrim : trimHistory cfg.1 p = p := by
        refine inv3 p ?_
        rw [hs]
        exact List.mem_cons_self _ _
      show set_history cfg.1 p = s.history
      rw [set_history, hptrim, hp]

/-- Closed instance of C1's amended theorem on a fresh calculator: perform
one addition, undo, and the history is back to the (empty) initial
contents. -/
theorem undo_after_perform_restores_pre_perform_witness :
    (calculator_undo 100
      (perform_calculation cfgEx executeOperation initState "add" 1 2 0).1).2 =
      none ∧
    (calculator_undo 100
      (perform_calculation cfgEx executeOperation initState
        "add" 1 2 0).1).1.history = initState.history := by
  have hperf := perform_add_concrete initState 0
  have hres := undo_after_perform_restores_pre_perform EngineReachable.init hperf
  rw [hperf]
  exact hres

/-- C1 counterexample: `load_history` produces a reachable state whose
loaded contents are not covered by any snapshot; after the next successful
`perform`, `undo` does not restore the pre-`perform` contents `[rowC]` but
the pre-load contents `[]`. -/
theorem undo_after_perform_load_counterexample :
    ReachableFull cfgEx executeOperation loadedStateEx ∧
    (perform_calculation cfgEx executeOperation loadedStateEx
      "add" 1 2 1).2.2 = Except.ok 3 ∧
    (calculator_undo 100 afterPerformEx).2 = none ∧
    (calculator_undo 100 afterPerformEx).1.history ≠ loadedStateEx.history := by
  have hload : loadedStateEx =
      { history := [rowC], undoStack := [[]], redoStack := [] } := by
    show (load_history 100 initState (CsvFile.rows [Except.ok rowC])).1 = _
    simp [load_history, load_from_csv, parse_rows, trimHistory, initState]
  have hperf := perform_add_concrete loadedStateEx 1
  have hafter : afterPerformEx =
      { history := [rowC, addCalc1], undoStack := [[rowC, addCalc1], []],
        redoStack := [] } := by
    show (perform_calculation cfgEx executeOperation loadedStateEx
      "add" 1 2 1).1 = _
    rw [hperf, hload]
    simp [add_calculation, trimHistory, addCalc1]
  refine ⟨?_, ?_, ?_, ?_⟩
  · exact @ReachableFull.load_step cfgEx executeOperation initState
      (CsvFile.rows [Except.ok rowC]) ReachableFull.init
  · rw [hperf]
  · rw [hafter, undo_step_cons]
  · rw [hafter, undo_step_cons, hload]
    show set_history 100 [] ≠ [rowC]
    rw [set_history, trimHistory_nil]
    simp

theorem getLastD_mem {ms : List α} (hne : ms ≠ []) (d : α) :
    ms.getLastD d ∈ ms := by
  rcases List.eq_nil_or_concat ms with h | ⟨l, a, rfl⟩
  · exact absurd h hne
  · simp [List.concat_eq_append, List.getLastD_concat]

/-- C3 (amended): from any engine-reachable state with a non-empty undo
stack, undoing once per stacked snapshot succeeds, the next `undo()` fails
with `HistoryError`, and one further `redo()` then succeeds — but it
restores the OLDEST stacked snapshot (it re-applies the last snapshot that
was undone, which for a fresh session is the initial empty snapshot), not
the history as it was before the undo sequence began. -/
theorem undo_exhaustion_redo_amended {cfg : ℕ × ℕ × ℚ}
    {exec : String → ℚ → ℚ → Except String ℚ} {s : CalcState}
    (hreach : EngineReachable cfg exec s) (hne : s.undoStack ≠ []) :
    (∀ k, k < s.undoStack.length →
      (calculator_undo cfg.1 (undoN cfg.1 k s)).2 = none) ∧
    (calculator_undo cfg.1 (undoN cfg.1 s.undoStack.length s)).2 =
      some (CalcError.historyError "Nothing to undo") ∧
    (calculator_redo cfg.1 (undoN cfg.1 s.undoStack.length s)).2 = none ∧
    (calculator_redo cfg.1 (undoN cfg.1 s.undoStack.length s)).1.history =
      s.undoStack.getLastD [] := by
  obtain ⟨inv1, inv2, inv3, inv4⟩ := engineReachable_stateInv hreach
  have hfull := undoN_full cfg.1 s.undoStack s rfl hne
  obtain ⟨l, hrev⟩ := reverse_eq_getLastD_cons hne ([] : List Calculation)
  have htrim : trimHistory cfg.1 (s.undoStack.getLastD []) =
      s.undoStack.getLastD [] := inv3 _ (getLastD_mem hne [])
  refine ⟨?_, ?_, ?_, ?_⟩
  · intro k hk
    apply undo_ok_of_ne
    rw [undoN_undoStack]
    intro hdrop
    have hlen := congrArg List.length hdrop
    simp only [List.length_drop, List.length_nil] at hlen
    omega
  · rw [hfull, undo_fail _ _ rfl]
  · rw [hfull]
    show (calculator_redo cfg.1
      ⟨[], [], s.undoStack.reverse ++ s.redoStack⟩).2 = none
    rw [hrev, List.cons_append, redo_step_cons]
  · rw [hfull]
    show (calculator_redo cfg.1
      ⟨[], [], s.undoStack.reverse ++ s.redoStack⟩).1.history = _
    rw [hrev, List.cons_append, redo_step_cons]
    show set_history cfg.1 (s.undoStack.getLastD []) = s.undoStack.getLastD []
    rw [set_history, htrim]

/-- Closed instance of C3's amended theorem on a fresh calculator: the one
stacked (initial, empty) snapshot can be undone once, the next undo fails,
and the redo after the failure succeeds, restoring the empty snapshot. -/
theorem undo_exhaustion_redo_amended_witness :
    (calculator_undo 100 (undoN 100 0 initState)).2 = none ∧
    (calculator_undo 100
      (undoN 100 initState.undoStack.length initState)).2 =
      some (CalcError.historyError "Nothing to undo") ∧
    (calculator_redo 100
      (undoN 100 initState.undoStack.length initState)).2 = none ∧
    (calculator_redo 100
      (undoN 100 initState.undoStack.length initState)).1.history =
      initState.undoStack.getLastD [] := by
  have h := @undo_exhaustion_redo_amended cfgEx executeOperation initState
    EngineReachable.init (by simp [initState])
  exact ⟨h.1 0 (by simp [initState]), h.2.1, h.2.2.1, h.2.2.2⟩

/-- C3 counterexample: one calculation on a fresh calculator, then undo to
exhaustion (two undos — the performed state and the initial snapshot), a
third undo fails as claimed, and the single `redo()` right after the
failure succeeds but yields the empty initial snapshot, NOT the most
recent pre-undo history (one addition record). -/
theorem redo_after_exhaustion_counterexample :
    EngineReachable cfgEx executeOperation s1Ex ∧
    (calculator_undo 100 s1Ex).2 = none ∧
    (calculator_undo 100 (calculator_undo 100 s1Ex).1).2 = none ∧
    (calculator_undo 100
      ((calculator_undo 100 (calculator_undo 100 s1Ex).1).1)).2 =
      some (CalcError.historyError "Nothing to undo") ∧
    (calculator_redo 100
      ((calculator_undo 100 (calculator_undo 100 s1Ex).1).1)).2 = none ∧
    (calculator_redo 100
      ((calculator_undo 100 (calculator_undo 100 s1Ex).1).1)).1.history ≠
      s1Ex.history := by
  have hs1 : s1Ex =
      { history := [addCalc0], undoStack := [[addCalc0], []],
        redoStack := [] } := by
    show (perform_calculation cfgEx executeOperation initState
      "add" 1 2 0).1 = _
    rw [perform_add_concrete]
    simp [initState, add_calculation, trimHistory, addCalc0]
  have e1 : calculator_undo 100 s1Ex = (⟨[], [[]], [[addCalc0]]⟩, none) := by
    rw [hs1, undo_step_cons]
    simp [set_history, trimHistory]
  have e2 : calculator_undo 100 (⟨[], [[]], [[addCalc0]]⟩ : CalcState) =
      (⟨[], [], [[], [addCalc0]]⟩, none) := by
    rw [undo_step_cons]
    simp [set_history, trimHistory]
  refine ⟨?_, ?_, ?_, ?_, ?_, ?_⟩
  · have hperf : perform_calculation cfgEx executeOperation initState
        "add" 1 2 0 = (s1Ex, [addCalc0], Except.ok 3) := by
      rw [hs1, perform_add_concrete]
      simp [initState, add_calculation, trimHistory, addCalc0]
    exact EngineReachable.perform EngineReachable.init hperf
  · rw [e1]
  · rw [e1, e2]
  · rw [e1, e2, undo_fail 100 _ rfl]
  · rw [e1, e2, redo_step_cons]
  · rw [e1, e2, redo_step_cons, hs1]
    show set_history 100 [] ≠ _
    rw [set_history, trimHistory_nil]
    simp
